import Mathlib

/-!
Shallow embedding of `src/zpool_influxdb.c` (richardelling/zpool_influxdb).

Machine integers are modelled as `Nat` with explicit `% 2^64` where 64-bit
wrap-around matters (the running histogram sums and the uint64 subtraction in
the scan-progress calculation).  Strings are `String`/`List Char` without the
terminating NUL.  The influxdb text formatting itself (printf) is not modelled;
records carry the field values that are printed.  The optional `MASK_UINT64`
display masking (`x & INT64_MAX`, applied at printf time when `SUPPORT_UINT64`
is not defined) is a build-time output-format choice and is modelled as the
separate function `MASK_UINT64`, not baked into the record values.
-/

/-- 2^64, the modulus of the C `uint64_t` type. -/
def U64 : Nat := 2 ^ 64

/-- 2^32, the modulus of the C `uint_t` type. -/
def U32 : Nat := 2 ^ 32

/-- Wrapping uint64 subtraction `a - b` (operands already reduced mod 2^64). -/
def u64sub (a b : Nat) : Nat := (a % U64 + U64 - b % U64) % U64

/-- The default-build display mask applied by printf: `(x) & INT64_MAX`.
For `x < 2^64` this is `x % 2^63`.  (With `SUPPORT_UINT64` defined the mask
is the identity.)  Kept separate from the record values, matching the spec's
treatment of the mask as an output-format configuration option. -/
def MASK_UINT64 (x : Nat) : Nat := x % 2 ^ 63

/-! ## escape_string (src/zpool_influxdb.c lines 119-141)

The C loop walks the input, and for each of the four reserved characters
(space, comma, equals, backslash) writes a backslash before copying the
character; every other byte is copied unchanged. -/

/-- Is `c` one of the four characters escaped by `escape_string`? -/
def isReserved (c : Char) : Bool :=
  c = ' ' || c = ',' || c = '=' || c = '\\'

/-- Model of `escape_string`: the body of the `for` loop over the input
characters.  (The C version writes into a fixed `ZFS_MAX_DATASET_NAME_LEN * 2`
buffer; the length bound is a caller contract and is not modelled.) -/
def escape_string : List Char → List Char
  | [] => []
  | c :: rest =>
    if isReserved c then '\\' :: c :: escape_string rest
    else c :: escape_string rest

/-- Decoder described by the spec's round-trip property: remove one backslash
before each reserved character, pass everything else through. -/
def unescape : List Char → List Char
  | [] => []
  | [c] => [c]
  | c :: d :: rest =>
    if c = '\\' ∧ isReserved d then d :: unescape rest
    else c :: unescape (d :: rest)

/-- Spec-side characterization of the escaper: each reserved character is
preceded by exactly one inserted backslash, all other bytes pass through. -/
def escapeSpec (s : List Char) : List Char :=
  s.flatMap fun c => if isReserved c then ['\\', c] else [c]

/-- ASCII letter, for the round-trip property's restricted alphabet. -/
def isAsciiLetter (c : Char) : Bool :=
  ('a' ≤ c && c ≤ 'z') || ('A' ≤ c && c ≤ 'Z')

/-! ## Histogram bucket reducer
(src/zpool_influxdb.c lines 414-455 `print_vdev_latency_stats` and
lines 507-549 `print_vdev_size_stats`; both functions contain the same
extraction loop and bucket loop, differing only in the floor index, the
name table and the boundary-label scaling). -/

/-- `MIN_LAT_INDEX` (line 66): minimum latency bucket index printed. -/
def MIN_LAT_INDEX : Nat := 10

/-- `MIN_SIZE_INDEX` (line 68): minimum size bucket index printed. -/
def MIN_SIZE_INDEX : Nat := 9

/-- One emitted histogram row.  `le` is the bucket boundary tag:
`some (2^bucket)` for a finite boundary (printed scaled by 1e-9 for latency
rows and raw for size rows — display scaling is formatting and not modelled),
`none` for the final "+Inf" row.  `values` are the per-series `sum`
accumulator registers (uint64) at the moment the row is printed. -/
structure HistRow where
  bucket : Nat
  le : Option Nat
  values : List Nat
deriving Repr, DecidableEq, Inhabited

/-- Boundary label for a row: the last bucket (`bucket = endIdx`) is "+Inf"
(`none`); every earlier row is labeled `2^bucket`. -/
def bucketLabel (endIdx bucket : Nat) : Option Nat :=
  if bucket < endIdx then some (2 ^ bucket) else none

/-- The silent fold-in step for `bucket < minIdx`:
`lat_type[i].sum += lat_type[i].array[bucket]` for every series (uint64 add). -/
def foldSums (arrays : List (List Nat)) (bucket : Nat) (sums : List Nat) : List Nat :=
  List.zipWith (fun s a => (s + a.getD bucket 0) % U64) sums arrays

/-- The per-row accumulator update for an emitted bucket:
`if (bucket <= minIdx || sum_histogram_buckets) sum += array[bucket];
else sum = array[bucket];`.  The branch condition does not depend on the
series index, so it is hoisted out of the per-series traversal. -/
def stepSums (minIdx : Nat) (sumB : Bool) (arrays : List (List Nat)) (bucket : Nat)
    (sums : List Nat) : List Nat :=
  if bucket ≤ minIdx ∨ sumB = true then foldSums arrays bucket sums
  else List.zipWith (fun _ a => a.getD bucket 0) sums arrays

/-- The bucket loop (`for (int bucket = 0; bucket <= end; bucket++)`),
processing the given list of bucket indices with the current per-series sums:
buckets below the floor index are folded in silently, every other bucket
emits a row after updating the sums. -/
def reduceBuckets (minIdx endIdx : Nat) (sumB : Bool) (arrays : List (List Nat)) :
    List Nat → List Nat → List HistRow
  | _, [] => []
  | sums, b :: bs =>
    if b < minIdx then
      reduceBuckets minIdx endIdx sumB arrays (foldSums arrays b sums) bs
    else
      let ns := stepSums minIdx sumB arrays b sums
      { bucket := b, le := bucketLabel endIdx b, values := ns } ::
        reduceBuckets minIdx endIdx sumB arrays ns bs

/-- The whole reducer: sums start at 0 for every series, buckets 0..endIdx. -/
def reduceHist (minIdx endIdx : Nat) (sumB : Bool) (arrays : List (List Nat)) :
    List HistRow :=
  reduceBuckets minIdx endIdx sumB arrays (arrays.map fun _ => 0)
    (List.range (endIdx + 1))

/-- `end = c - 1` where `c` is the `uint_t` array length reported by the
lookup: uint32 wrap-around subtraction. -/
def histEnd (c : Nat) : Nat := (c % U32 + U32 - 1) % U32

/-- The extraction loop over the fixed name table
(`for (int i = 0; lat_type[i].name; i++) { nvlist_lookup_uint64_array(...) }`):
a failed lookup aborts with error 3 before any row is printed; after each
successful lookup `end` is overwritten with that array's length minus one
("all of the arrays are the same size" is assumed, never checked).
`lookups` holds the lookup result for each name in table order. -/
def histExtract : List (Option (List Nat)) → Nat → Except Nat (List (List Nat) × Nat)
  | [], e => .ok ([], e)
  | none :: _, _ => .error 3
  | some a :: rest, _ =>
    match histExtract rest (histEnd a.length) with
    | .error e => .error e
    | .ok (as, en) => .ok (a :: as, en)

/-! ## Scan status (src/zpool_influxdb.c lines 149-249 `print_scan_status`) -/

/-- `DSS_NUM_STATES`: dsl_scan_state values none/scanning/finished/canceled. -/
def DSS_NUM_STATES : Nat := 4

/-- `DSS_SCANNING`. -/
def DSS_SCANNING : Nat := 1

/-- `POOL_SCAN_FUNCS`: pool_scan_func values none/scrub/resilver. -/
def POOL_SCAN_FUNCS : Nat := 3

/-- The `pool_scan_stat_t` counter block (all fields uint64). -/
structure pool_scan_stat where
  pss_func : Nat
  pss_state : Nat
  pss_start_time : Nat
  pss_end_time : Nat
  pss_to_examine : Nat
  pss_examined : Nat
  pss_to_process : Nat
  pss_processed : Nat
  pss_errors : Nat
  pss_pass_exam : Nat
  pss_pass_start : Nat
  pss_pass_scrub_pause : Nat
  pss_pass_scrub_spent_paused : Nat
deriving Repr, DecidableEq

/-- `(int64_t) x` for a uint64 value `x`: two's-complement reinterpretation. -/
def toInt64 (x : Nat) : Int :=
  if x % U64 < 2 ^ 63 then (x % U64 : Int) else (x % U64 : Int) - (U64 : Int)

/-- The `state[]` name table (line 157). -/
def scanStateName : Nat → String
  | 0 => "none"
  | 1 => "scanning"
  | 2 => "finished"
  | 3 => "canceled"
  | _ => ""

/-- The `func` switch (lines 172-189).  (`POOL_SCAN_REBUILD` is not defined
in the libzfs revisions this file targets; the `default` arm is unreachable
after the range guard but kept faithfully.) -/
def scanFuncName : Nat → String
  | 0 => "none_requested"
  | 1 => "scrub"
  | 2 => "resilver"
  | _ => "scan"

/-- The fields of one emitted scan record (tags `function`,`state` plus the
uint64 fields in printed order; the floating-point `pct_done` field is not
modelled). -/
structure ScanRecord where
  func : String
  state : String
  end_ts : Nat
  errors : Nat
  examined : Nat
  pass_examined : Nat
  pause_ts : Nat
  paused_t : Nat
  processed : Nat
  rate : Nat
  remaining_t : Nat
  start_ts : Nat
  to_examine : Nat
  to_process : Nat
deriving Repr, DecidableEq

/-- Model of `print_scan_status`.  `psOpt` is the result of the
`ZPOOL_CONFIG_SCAN_STATS` lookup, `now` the result of `time(NULL)`.
Returns the C return code together with the record printed (if any).
Note the guard (lines 165-170) returns 1 — not 0 — when there are no stats
or the state/function enum is out of range, despite the comment "ignore if
there are no stats or state is bogus". -/
def print_scan_status (psOpt : Option pool_scan_stat) (now : Int) :
    Nat × Option ScanRecord :=
  match psOpt with
  | none => (1, none)
  | some ps =>
    if ps.pss_state ≥ DSS_NUM_STATES ∨ ps.pss_func ≥ POOL_SCAN_FUNCS then
      (1, none)
    else
      let examined := if ps.pss_examined ≠ 0 then ps.pss_examined else 1
      let paused_ts := ps.pss_pass_scrub_pause
      let paused_time := ps.pss_pass_scrub_spent_paused
      -- `pass_exam` is computed identically inside both branches; hoisted.
      let pass_exam := if ps.pss_pass_exam ≠ 0 then ps.pss_pass_exam else 1
      let rr : Nat × Nat :=
        if ps.pss_state = DSS_SCANNING then
          let elapsed := now - toInt64 ps.pss_pass_start - toInt64 paused_time
          let elapsed := if elapsed > 0 then elapsed else 1
          let rate := pass_exam / elapsed.toNat
          let rate := if rate > 0 then rate else 1
          (rate, u64sub ps.pss_to_examine (examined / rate))
        else
          let elapsed :=
            toInt64 ps.pss_end_time - toInt64 ps.pss_pass_start - toInt64 paused_time
          let elapsed := if elapsed > 0 then elapsed else 1
          let rate := pass_exam / elapsed.toNat
          (rate, 0)
      let rate := if rr.1 ≠ 0 then rr.1 else 1
      (0, some
        { func := scanFuncName ps.pss_func
          state := scanStateName ps.pss_state
          end_ts := ps.pss_end_time
          errors := ps.pss_errors
          examined := examined
          pass_examined := pass_exam
          pause_ts := paused_ts
          paused_t := paused_time
          processed := ps.pss_processed
          rate := rate
          remaining_t := rr.2
          start_ts := ps.pss_start_time
          to_examine := ps.pss_to_examine
          to_process := ps.pss_to_process })

/-! ## Device tree, namer and recursive walker
(src/zpool_influxdb.c lines 288-311 `get_vdev_name`, 323-365 `get_vdev_desc`,
661-686 `print_recursive_stats`) -/

/-- The `ZPOOL_CONFIG_VDEV_STATS_EX` nvlist of one node, reduced to the three
lookup families the printers use.  Each list holds the lookup result for each
name of the corresponding fixed name table, in table order (latency:
total/disk/sync/async read+write and scrub; size: sync/async/scrub ind+agg;
queue: five active and five pending gauges). -/
structure VdevStatsEx where
  latHistos : List (Option (List Nat))
  sizeHistos : List (Option (List Nat))
  queueVals : List (Option Nat)
deriving Repr, DecidableEq

/-- One nvlist node of the vdev tree: `ZPOOL_CONFIG_TYPE`, `ZPOOL_CONFIG_ID`,
`ZPOOL_CONFIG_PATH`, `ZPOOL_CONFIG_VDEV_STATS_EX` and `ZPOOL_CONFIG_CHILDREN`
(a leaf has no children entry, modelled as the empty list). -/
inductive VdevNode : Type where
  | mk : (vdev_type : Option String) → (vdev_id : Option Nat) →
      (vdev_path : Option String) → (stats_ex : Option VdevStatsEx) →
      (children : List VdevNode) → VdevNode

def VdevNode.vdev_type : VdevNode → Option String
  | .mk t _ _ _ _ => t

def VdevNode.vdev_id : VdevNode → Option Nat
  | .mk _ i _ _ _ => i

def VdevNode.vdev_path : VdevNode → Option String
  | .mk _ _ p _ _ => p

def VdevNode.stats_ex : VdevNode → Option VdevStatsEx
  | .mk _ _ _ s _ => s

def VdevNode.children : VdevNode → List VdevNode
  | .mk _ _ _ _ c => c

/-- `get_vdev_name`: structural name `parent/type-id`, or the bare type at the
root; a missing type renders as "unknown" and a missing id as `UINT64_MAX`.
(The C version formats into a 256-byte static buffer; truncation of
over-long names is not modelled.) -/
def get_vdev_name (nv : VdevNode) (parent_name : Option String) : String :=
  let vdev_type := nv.vdev_type.getD "unknown"
  let vdev_id := nv.vdev_id.getD (U64 - 1)
  match parent_name with
  | none => vdev_type
  | some p => p ++ "/" ++ vdev_type ++ "-" ++ toString vdev_id

/-- `get_vdev_desc`: the influxdb tag fragment for a node —
`vdev=<escaped structural name>`, prefixed by `path=<escaped path>,` when a
path is present. -/
def get_vdev_desc (nv : VdevNode) (parent_name : Option String) : String :=
  let vdev_type := nv.vdev_type.getD "unknown"
  let vdev_id := nv.vdev_id.getD (U64 - 1)
  let vdev_value :=
    match parent_name with
    | none => "vdev=" ++ String.mk (escape_string vdev_type.data)
    | some p =>
      "vdev=" ++ String.mk (escape_string p.data) ++ "/" ++
        String.mk (escape_string vdev_type.data) ++ "-" ++ toString vdev_id
  match nv.vdev_path with
  | none => vdev_value
  | some pa => "path=" ++ String.mk (escape_string pa.data) ++ "," ++ vdev_value

mutual
/-- `print_recursive_stats`: call `func` on the node; a nonzero return
propagates immediately.  On success, when `descend` is set and the node has a
children array, recurse into each child in order with this node's structural
name as the new parent name; the children's return values are discarded and
the function returns 0.  The second component collects everything `func`
printed, in print order (`α` abstracts over the record type of `func`). -/
def print_recursive_stats {α : Type} (func : VdevNode → Option String → Nat × List α) :
    VdevNode → Option String → Bool → Nat × List α
  | .mk t i p s cs, parent, descend =>
    let nv : VdevNode := .mk t i p s cs
    let r := func nv parent
    if r.1 ≠ 0 then r
    else
      let rest :=
        if descend && !cs.isEmpty then
          walkChildren func cs (get_vdev_name nv parent) descend
        else []
      (0, r.2 ++ rest)

/-- The `for (c = 0; c < children; c++)` loop of `print_recursive_stats`:
each child's return value is ignored, only its printed output accumulates. -/
def walkChildren {α : Type} (func : VdevNode → Option String → Nat × List α) :
    List VdevNode → String → Bool → List α
  | [], _, _ => []
  | c :: rest, vdev_name, descend =>
    (print_recursive_stats func c (some vdev_name) descend).2 ++
      walkChildren func rest vdev_name descend
end

/-- The sequence of `(node, parent_name)` arguments on which the walker
invokes the per-node function, obtained by instrumenting the walker with a
function that records its own call. -/
def walkerCalls (f : VdevNode → Option String → Nat) (nv : VdevNode)
    (parent : Option String) (descend : Bool) : List (VdevNode × Option String) :=
  (print_recursive_stats (fun n p => (f n p, [(n, p)])) nv parent descend).2

mutual
/-- Spec-side definition (§4.5 Tree Walker): the pre-order listing of every
node of the tree together with the parent-name argument it should receive —
the node first, then each child subtree in original order, children receiving
this node's structural name as parent name. -/
def specPreorder : VdevNode → Option String → List (VdevNode × Option String)
  | .mk t i p s cs, parent =>
    (VdevNode.mk t i p s cs, parent) ::
      specPreorderList cs (get_vdev_name (.mk t i p s cs) parent)

/-- Pre-order listing of a list of sibling subtrees under a given parent name. -/
def specPreorderList : List VdevNode → String → List (VdevNode × Option String)
  | [], _ => []
  | c :: rest, vdev_name =>
    specPreorder c (some vdev_name) ++ specPreorderList rest vdev_name
end

mutual
/-- Number of nodes of a device tree. -/
def VdevNode.size : VdevNode → Nat
  | .mk _ _ _ _ cs => 1 + VdevNode.sizeList cs

/-- Total number of nodes of a list of trees. -/
def VdevNode.sizeList : List VdevNode → Nat
  | [] => 0
  | c :: rest => VdevNode.size c + VdevNode.sizeList rest
end

/-! ## Per-node printers and the per-pool dispatch
(src/zpool_influxdb.c lines 254-283, 377-456, 468-550, 558-605, 610-654,
694-757) -/

/-- The `vdev_stat_t` fields read by the summary printer. -/
structure vdev_stat where
  vs_state : Nat
  vs_aux : Nat
  vs_alloc : Nat
  vs_space : Nat
  vs_read_errors : Nat
  vs_write_errors : Nat
  vs_checksum_errors : Nat
  vs_fragmentation : Nat
  vs_bytes_read : Nat
  vs_bytes_write : Nat
  vs_ops_read : Nat
  vs_ops_write : Nat
deriving Repr, DecidableEq

/-- The pool-summary record: the `state` tag is produced by the external
`zpool_state_to_name` collaborator from `(vs_state, vs_aux)`, recorded here
as the raw pair.  `free` is the uint64 difference `vs_space - vs_alloc`. -/
structure SummaryRecord where
  name : String
  vs_state : Nat
  vs_aux : Nat
  alloc : Nat
  free : Nat
  size : Nat
  read_bytes : Nat
  read_errors : Nat
  read_ops : Nat
  write_bytes : Nat
  write_errors : Nat
  write_ops : Nat
  checksum_errors : Nat
  fragmentation : Nat
deriving Repr, DecidableEq

/-- One emitted line, by record kind.  String arguments are the escaped pool
name and (for per-vdev records) the `get_vdev_desc` tag fragment. -/
inductive Output : Type where
  | summary : SummaryRecord → Output
  | scan : ScanRecord → Output
  | topVdev : String → List Nat → Output
  | latRow : String → String → HistRow → Output
  | sizeRow : String → String → HistRow → Output
  | queue : String → String → List Nat → Output
deriving Repr, DecidableEq

/-- `print_top_level_summary_stats`: a failed `ZPOOL_CONFIG_VDEV_STATS`
lookup returns 1, otherwise the summary record is printed. -/
def print_top_level_summary_stats (pool_name : String) (vsOpt : Option vdev_stat) :
    Nat × List Output :=
  match vsOpt with
  | none => (1, [])
  | some vs =>
    (0, [Output.summary
      { name := pool_name
        vs_state := vs.vs_state
        vs_aux := vs.vs_aux
        alloc := vs.vs_alloc
        free := u64sub vs.vs_space vs.vs_alloc
        size := vs.vs_space
        read_bytes := vs.vs_bytes_read
        read_errors := vs.vs_read_errors
        read_ops := vs.vs_ops_read
        write_bytes := vs.vs_bytes_write
        write_errors := vs.vs_write_errors
        write_ops := vs.vs_ops_write
        checksum_errors := vs.vs_checksum_errors
        fragmentation := vs.vs_fragmentation }])

/-- The queue-gauge lookup loop: the first missing name aborts with error 3.
(The C version has already printed the tag header by then — the partial,
newline-less line is not modelled as a record.) -/
def lookupAllQueue : List (Option Nat) → Except Nat (List Nat)
  | [] => .ok []
  | none :: _ => .error 3
  | some v :: rest =>
    match lookupAllQueue rest with
    | .error e => .error e
    | .ok vs => .ok (v :: vs)

/-- `print_vdev_latency_stats`: missing `ZPOOL_CONFIG_VDEV_STATS_EX` is
error 6; a missing histogram array is error 3 (no rows printed); otherwise
the bucket reducer runs with floor index `MIN_LAT_INDEX`. -/
def print_vdev_latency_stats (sumB : Bool) (pool_name : String) (nv : VdevNode)
    (parent_name : Option String) : Nat × List Output :=
  match nv.stats_ex with
  | none => (6, [])
  | some ex =>
    match histExtract ex.latHistos 0 with
    | .error e => (e, [])
    | .ok (arrays, endIdx) =>
      (0, (reduceHist MIN_LAT_INDEX endIdx sumB arrays).map
        (Output.latRow pool_name (get_vdev_desc nv parent_name)))

/-- `print_vdev_size_stats`: identical structure with floor index
`MIN_SIZE_INDEX` and the size name table. -/
def print_vdev_size_stats (sumB : Bool) (pool_name : String) (nv : VdevNode)
    (parent_name : Option String) : Nat × List Output :=
  match nv.stats_ex with
  | none => (6, [])
  | some ex =>
    match histExtract ex.sizeHistos 0 with
    | .error e => (e, [])
    | .ok (arrays, endIdx) =>
      (0, (reduceHist MIN_SIZE_INDEX endIdx sumB arrays).map
        (Output.sizeRow pool_name (get_vdev_desc nv parent_name)))

/-- `print_queue_stats`: per-vdev queue gauges. -/
def print_queue_stats (pool_name : String) (nv : VdevNode)
    (parent_name : Option String) : Nat × List Output :=
  match nv.stats_ex with
  | none => (6, [])
  | some ex =>
    match lookupAllQueue ex.queueVals with
    | .error e => (e, [])
    | .ok vs => (0, [Output.queue pool_name (get_vdev_desc nv parent_name) vs])

/-- `print_top_level_vdev_stats`: the root-only queue record (`vdev=root`). -/
def print_top_level_vdev_stats (pool_name : String) (nv : VdevNode) :
    Nat × List Output :=
  match nv.stats_ex with
  | none => (6, [])
  | some ex =>
    match lookupAllQueue ex.queueVals with
    | .error e => (e, [])
    | .ok vs => (0, [Output.topVdev pool_name vs])

/-- The root nvlist of a pool's config: the vdev tree root node together with
the root-level `ZPOOL_CONFIG_VDEV_STATS` and `ZPOOL_CONFIG_SCAN_STATS`
entries. -/
structure Nvroot where
  vdev_stats : Option vdev_stat
  scan_stats : Option pool_scan_stat
  node : VdevNode

/-- One pool handle as seen by the callback: its name, whether
`zpool_refresh_stats` succeeds, and the `ZPOOL_CONFIG_VDEV_TREE` entry of its
config. -/
structure Pool where
  zpool_name : String
  refresh_ok : Bool
  vdev_tree : Option Nvroot

/-- The filter test at the top of `print_stats`: with an explicit pool-name
argument, a pool whose name differs is skipped.  (`strncmp` with bound
`ZFS_MAX_DATASET_NAME_LEN` equals full string comparison, since pool names
are shorter than the bound by construction.) -/
def filterSkips : Option String → String → Bool
  | none, _ => false
  | some f, name => f ≠ name

/-- Wrapper turning the scan-status result into output lines. -/
def scanOutput (psOpt : Option pool_scan_stat) (now : Int) : Nat × List Output :=
  let r := print_scan_status psOpt now
  (r.1, match r.2 with
    | some sr => [Output.scan sr]
    | none => [])

/-- `print_stats` (lines 694-757): the per-pool callback.  Skip silently on a
filter mismatch; a failed refresh is error 1, a missing vdev tree error 2, a
missing root vdev-stat array error 3.  Then the stages run in order — summary,
scan, top-level vdev queue, and (histograms enabled) recursive latency, size
and per-vdev queue — each stage only if every earlier stage returned 0
("if any of these return an error, skip the rest"), and the last stage's
error code is returned.  The timestamp capture is not modelled. -/
def print_stats (filter : Option String) (noHist sumB : Bool) (now : Int)
    (pool : Pool) : Nat × List Output :=
  if filterSkips filter pool.zpool_name then (0, [])
  else if pool.refresh_ok = false then (1, [])
  else
    match pool.vdev_tree with
    | none => (2, [])
    | some nvroot =>
      if nvroot.vdev_stats.isNone then (3, [])
      else
        let pool_name := String.mk (escape_string pool.zpool_name.data)
        let s1 := print_top_level_summary_stats pool_name nvroot.vdev_stats
        let s2 := if s1.1 = 0 then scanOutput nvroot.scan_stats now else (s1.1, [])
        let s3 := if s2.1 = 0 then print_top_level_vdev_stats pool_name nvroot.node
          else (s2.1, [])
        let s4 := if noHist = false ∧ s3.1 = 0 then
            print_recursive_stats (print_vdev_latency_stats sumB pool_name)
              nvroot.node none true
          else (s3.1, [])
        let s5 := if noHist = false ∧ s4.1 = 0 then
            print_recursive_stats (print_vdev_size_stats sumB pool_name)
              nvroot.node none true
          else (s4.1, [])
        let s6 := if noHist = false ∧ s5.1 = 0 then
            print_recursive_stats (print_queue_stats pool_name)
              nvroot.node none false
          else (s5.1, [])
        (s6.1, s1.2 ++ s2.2 ++ s3.2 ++ s4.2 ++ s5.2 ++ s6.2)

/-- Modelled from the spec: `zpool_iter` (libzfs, not part of this
repository's sources) enumerates the imported pools and applies the callback
to each; per §4.7 an error in one pool "does not abort other pools or the
overall process", and per §6 the exit code "propagates the first stage's
error code" — so every pool is visited, the outputs concatenate, and the
first nonzero callback result becomes the exit code. -/
def zpool_iter (pools : List Pool) (cb : Pool → Nat × List Output) :
    Nat × List Output :=
  match pools with
  | [] => (0, [])
  | p :: rest =>
    let r := zpool_iter rest cb
    let c := cb p
    (if c.1 ≠ 0 then c.1 else r.1, c.2 ++ r.2)

/-! ## Concrete fixtures used by the closed theorems below -/

/-- A leaf disk node with a device path and no extended stats. -/
def diskNode : VdevNode := .mk (some "disk") (some 0) (some "/dev/sda") none []

/-- A two-node tree: a root with one disk child. -/
def rootNode2 : VdevNode := .mk (some "root") (some 0) none none [diskNode]

/-- Fully populated extended stats: nine 16-bucket latency histograms, ten
16-bucket size histograms, ten queue gauges. -/
def exFull : VdevStatsEx :=
  { latHistos := List.replicate 9 (some (List.replicate 16 1))
    sizeHistos := List.replicate 10 (some (List.replicate 16 1))
    queueVals := List.replicate 10 (some 2) }

/-- A concrete root vdev-stat block. -/
def vsEx : vdev_stat :=
  { vs_state := 7, vs_aux := 0, vs_alloc := 100, vs_space := 1000
    vs_read_errors := 0, vs_write_errors := 0, vs_checksum_errors := 0
    vs_fragmentation := 5, vs_bytes_read := 11, vs_bytes_write := 12
    vs_ops_read := 13, vs_ops_write := 14 }

/-- A healthy pool that has never been scrubbed or resilvered: its config has
a vdev tree, root vdev stats and full extended stats, but no
`ZPOOL_CONFIG_SCAN_STATS` entry. -/
def neverScrubbedPool : Pool :=
  { zpool_name := "tank"
    refresh_ok := true
    vdev_tree := some
      { vdev_stats := some vsEx
        scan_stats := none
        node := .mk (some "root") (some 0) none (some exFull) [] } }

/-- A scan-stat block whose state enum is out of range (7 ≥ DSS_NUM_STATES). -/
def bogusScanStat : pool_scan_stat :=
  { pss_func := 1, pss_state := 7, pss_start_time := 0, pss_end_time := 0
    pss_to_examine := 0, pss_examined := 0, pss_to_process := 0
    pss_processed := 0, pss_errors := 0, pss_pass_exam := 0
    pss_pass_start := 0, pss_pass_scrub_pause := 0
    pss_pass_scrub_spent_paused := 0 }

/-- A scan-stat block of a scan in progress: 500 of 1000 units examined,
600 units examined this pass, pass started at time 0. -/
def scanningStat : pool_scan_stat :=
  { pss_func := 1, pss_state := 1, pss_start_time := 5, pss_end_time := 0
    pss_to_examine := 1000, pss_examined := 500, pss_to_process := 7
    pss_processed := 3, pss_errors := 0, pss_pass_exam := 600
    pss_pass_start := 0, pss_pass_scrub_pause := 0
    pss_pass_scrub_spent_paused := 0 }

/-- Extended stats in which the second latency histogram array is missing. -/
def exMissingLat : VdevStatsEx :=
  { latHistos := [some [1, 2], none], sizeHistos := [], queueVals := [] }

/-- A leaf node carrying `exMissingLat`. -/
def nodeMissingLat : VdevNode := .mk (some "disk") (some 1) none (some exMissingLat) []

/-! ## General helper lemmas -/

theorem U64_pos : 0 < U64 := by
  unfold U64; positivity

theorem zipWith_map_self {α β γ : Type} (g : α → β) (f : β → α → γ) (l : List α) :
    List.zipWith f (l.map g) l = l.map fun a => f (g a) a := by
  induction l with
  | nil => rfl
  | cons a t ih => simp [ih]

theorem sum_take_le (l : List Nat) (m : Nat) : (l.take m).sum ≤ l.sum := by
  conv_rhs => rw [← List.take_append_drop m l]
  rw [List.sum_append]
  omega

theorem sum_take_mono (l : List Nat) (m n : Nat) (h : m ≤ n) :
    (l.take m).sum ≤ (l.take n).sum := by
  have heq : l.take m = (l.take n).take m := by
    rw [List.take_take]
    congr 1
    exact (inf_eq_left.mpr h).symm
  rw [heq]
  exact sum_take_le _ _

/-! ## Escaper lemmas (claim C7) -/

theorem escape_string_eq_escapeSpec (s : List Char) : escape_string s = escapeSpec s := by
  induction s with
  | nil => rfl
  | cons c rest ih =>
    by_cases h : isReserved c = true <;>
      simp [escape_string, escapeSpec, h] <;>
      simpa [escapeSpec] using ih

theorem escape_string_ne_nil (c : Char) (rest : List Char) :
    escape_string (c :: rest) ≠ [] := by
  by_cases h : isReserved c = true <;> simp [escape_string, h]

theorem not_reserved_ne_backslash {c : Char} (h : ¬ isReserved c = true) : c ≠ '\\' := by
  intro hc
  subst hc
  simp [isReserved] at h

theorem unescape_escape_string (s : List Char) : unescape (escape_string s) = s := by
  induction s with
  | nil => rfl
  | cons c rest ih =>
    by_cases h : isReserved c = true
    · simp [escape_string, h, unescape, ih]
    · simp only [escape_string, if_neg h]
      match hrest : escape_string rest with
      | [] =>
        have : rest = [] := by
          cases rest with
          | nil => rfl
          | cons d t => exact absurd hrest (escape_string_ne_nil d t)
        simp [unescape, this]
      | d :: t =>
        have hc := not_reserved_ne_backslash h
        simp only [unescape]
        rw [if_neg (fun hand => hc hand.1), ← hrest, ih]

/-- C7: for every input string the escaper inserts exactly one backslash
before each occurrence of space, comma, equals or backslash and passes every
other byte through unchanged, and on strings made only of the four reserved
characters and ASCII letters, removing one backslash before each reserved
character in the output recovers the input exactly. -/
theorem c7_escape_characterization_and_roundtrip (s : List Char) :
    escape_string s = escapeSpec s ∧
    ((∀ c ∈ s, isReserved c = true ∨ isAsciiLetter c = true) →
      unescape (escape_string s) = s) :=
  ⟨escape_string_eq_escapeSpec s, fun _ => unescape_escape_string s⟩

/-- Witness for C7 at the concrete input `" a\"`. -/
theorem c7_witness :
    unescape (escape_string [' ', 'a', '\\']) = [' ', 'a', '\\'] :=
  (c7_escape_characterization_and_roundtrip [' ', 'a', '\\']).2 (by decide)

/-- C1: the code contradicts the claim.  On a pool whose config carries no
scan stats (never scrubbed — and likewise on an out-of-range scan state),
`print_scan_status` emits no record but returns 1; `print_stats` therefore
treats the scan stage as a hard error: the top-level vdev queue record and
the histogram/per-vdev queue stages are skipped (only the summary line is
emitted) and the pool's callback returns 1, a nonzero error code. -/
theorem c1_missing_scan_stats_aborts_pool_stages :
    print_scan_status none 0 = (1, none) ∧
    print_scan_status (some bogusScanStat) 0 = (1, none) ∧
    print_stats none false false 0 neverScrubbedPool =
      (1, [Output.summary
        { name := "tank", vs_state := 7, vs_aux := 0, alloc := 100, free := 900
          size := 1000, read_bytes := 11, read_errors := 0, read_ops := 13
          write_bytes := 12, write_errors := 0, write_ops := 14
          checksum_errors := 0, fragmentation := 5 }]) :=
  ⟨rfl, rfl, by decide⟩

/-- C10: a pool whose name differs from an explicit filter is skipped with no
output and return code 0, and a whole sampling pass over pools none of which
matches the filter produces no output and exit code 0. -/
theorem c10_filter_mismatch_silent_success (fname : String) (noHist sumB : Bool)
    (now : Int) (pool : Pool) (pools : List Pool)
    (hp : pool.zpool_name ≠ fname) (hps : ∀ q ∈ pools, q.zpool_name ≠ fname) :
    print_stats (some fname) noHist sumB now pool = (0, []) ∧
    zpool_iter pools (print_stats (some fname) noHist sumB now) = (0, []) := by
  have key : ∀ q : Pool, q.zpool_name ≠ fname →
      print_stats (some fname) noHist sumB now q = (0, []) := by
    intro q hq
    have hskip : filterSkips (some fname) q.zpool_name = true := by
      simp [filterSkips]
      exact Ne.symm hq
    unfold print_stats
    rw [if_pos hskip]
  refine ⟨key pool hp, ?_⟩
  induction pools with
  | nil => rfl
  | cons q rest ih =>
    simp only [zpool_iter]
    rw [key q (hps q (by simp)), ih (fun r hr => hps r (by simp [hr]))]
    simp

/-- Witness for C10 with the filter "other" and the pool "tank". -/
theorem c10_witness :
    print_stats (some "other") false false 0 neverScrubbedPool = (0, []) ∧
    zpool_iter [neverScrubbedPool] (print_stats (some "other") false false 0) =
      (0, []) :=
  c10_filter_mismatch_silent_success "other" false false 0 neverScrubbedPool
    [neverScrubbedPool] (by decide) (by decide)

/-- C2 fails on the code: with `sum_buckets=false`, floor index 10 and the
single 12-bucket series `[1,0,...,0,5]`, the row for bucket 11 (= F+1) holds
the raw value 5, not the running sum 1 + 5 = 6 that the fold-in-inclusive
cumulative reading would require: only bucket F itself is cumulative. -/
theorem c2_counterexample :
    (reduceHist MIN_LAT_INDEX 11 false [[1, 0, 0, 0, 0, 0, 0, 0, 0, 0, 0, 5]]).map
        HistRow.values = [[1], [5]] ∧
    (5 : Nat) ≠ 1 + 5 :=
  ⟨by decide, by decide⟩

/-- C3 fails on the code: two present histogram arrays of differing lengths
(2 and 3) are extracted without any error — the result is `.ok`, and the
bucket bound is silently the last array's length minus one. -/
theorem c3_counterexample :
    histExtract [some [1, 2], some [3, 4, 5]] 0 = .ok ([[1, 2], [3, 4, 5]], 2) ∧
    ([1, 2] : List Nat).length ≠ ([3, 4, 5] : List Nat).length :=
  ⟨rfl, by decide⟩

/-- C6 fails on the code without an overflow bound: with `sum_buckets=true`
and the single series `[0,...,0, 2^64-1, 2]`, the running uint64 sum wraps
between the rows for buckets 10 and 11, so the emitted sequence decreases
from 2^64-1 to 1. -/
theorem c6_counterexample :
    (reduceHist 10 11 true [[0, 0, 0, 0, 0, 0, 0, 0, 0, 0, 2 ^ 64 - 1, 2]]).map
        HistRow.values = [[2 ^ 64 - 1], [1]] ∧
    ¬ (2 ^ 64 - 1 : Nat) ≤ 1 :=
  ⟨by decide, by decide⟩

/-- C9 fails on the code when the per-node function reports an error: on a
two-node tree with a function that returns 1 everywhere, the walker calls the
function once (on the root) and never visits the child, so it does not visit
every node exactly once. -/
theorem c9_counterexample :
    walkerCalls (fun _ _ => 1) rootNode2 none true = [(rootNode2, none)] ∧
    VdevNode.size rootNode2 = 2 ∧ (1 : Nat) ≠ 2 :=
  ⟨rfl, rfl, by decide⟩

/-! ## Walker lemmas (claims C4 and C9) -/

theorem traced_self_mem (f : VdevNode → Option String → Nat) :
    ∀ (c : VdevNode) (p : Option String) (d : Bool),
      (c, p) ∈ (print_recursive_stats (fun n q => (f n q, [(n, q)])) c p d).2
  | .mk t i pa s cs, p, d => by
    by_cases h : f (VdevNode.mk t i pa s cs) p ≠ 0 <;>
      simp [print_recursive_stats, h]

theorem walkChildren_calls_mem (f : VdevNode → Option String → Nat)
    (vname : String) (d : Bool) :
    ∀ (cs : List VdevNode), ∀ c ∈ cs,
      (c, some vname) ∈ walkChildren (fun n q => (f n q, [(n, q)])) cs vname d := by
  intro cs
  induction cs with
  | nil => intro c hc; cases hc
  | cons a rest ih =>
    intro c hc
    simp only [walkChildren, List.mem_append]
    rcases List.mem_cons.mp hc with rfl | hmem
    · exact Or.inl (traced_self_mem f c (some vname) d)
    · exact Or.inr (ih c hmem)

/-- C4: the walker returns exactly the error code its per-node function
produced on the node itself — so a nonzero code from a descendant is
discarded and a clean root call yields 0 — and when the root call succeeds,
every child is visited (appears in the call trace with this node's
structural name as parent) no matter what the function returns on any
descendant, so sibling traversal and the dispatch chaining that consumes the
walker's return value are unaffected by descendant errors. -/
theorem c4_walker_error_propagation {α : Type}
    (func : VdevNode → Option String → Nat × List α)
    (f : VdevNode → Option String → Nat)
    (nv : VdevNode) (parent : Option String) (descend : Bool) :
    (print_recursive_stats func nv parent descend).1 = (func nv parent).1 ∧
    (f nv parent = 0 →
      ∀ c ∈ nv.children, (c, some (get_vdev_name nv parent)) ∈
        walkerCalls f nv parent true) := by
  cases nv with
  | mk t i p s cs =>
    constructor
    · by_cases h : (func (VdevNode.mk t i p s cs) parent).1 ≠ 0
      · simp [print_recursive_stats, h]
      · simp [print_recursive_stats, h]
        omega
    · intro h0 c hc
      simp only [VdevNode.children] at hc
      have hcs : ¬ cs.isEmpty := by
        cases cs with
        | nil => cases hc
        | cons a rest => simp [List.isEmpty]
      unfold walkerCalls
      simp only [print_recursive_stats, h0]
      simp [hcs]
      right
      exact walkChildren_calls_mem f _ true cs c hc

/-- Witness for C4: on the two-node tree, a function returning 5 at the root
propagates 5, and with a clean function the child appears in the trace under
the parent name "root". -/
theorem c4_witness :
    (print_recursive_stats (fun _ _ => ((5 : Nat), ([] : List Unit)))
      rootNode2 none true).1 = 5 ∧
    (diskNode, some "root") ∈ walkerCalls (fun _ _ => 0) rootNode2 none true := by
  constructor
  · exact (c4_walker_error_propagation (fun _ _ => ((5 : Nat), ([] : List Unit)))
      (fun _ _ => 0) rootNode2 none true).1
  · exact (c4_walker_error_propagation (fun _ _ => ((5 : Nat), ([] : List Unit)))
      (fun _ _ => 0) rootNode2 none true).2 rfl diskNode
      (by simp [rootNode2, VdevNode.children])

mutual
theorem walker_trace_eq (f : VdevNode → Option String → Nat)
    (h : ∀ n p, f n p = 0) :
    ∀ (nv : VdevNode) (parent : Option String),
      (print_recursive_stats (fun n q => (f n q, [(n, q)])) nv parent true).2 =
        specPreorder nv parent
  | .mk t i p s cs, parent => by
    have h0 := h (VdevNode.mk t i p s cs) parent
    simp only [print_recursive_stats, specPreorder, h0]
    cases cs with
    | nil => simp [specPreorderList]
    | cons c rest =>
      simp [List.isEmpty]
      exact walkChildren_trace_eq f h (c :: rest) _

theorem walkChildren_trace_eq (f : VdevNode → Option String → Nat)
    (h : ∀ n p, f n p = 0) :
    ∀ (cs : List VdevNode) (vname : String),
      walkChildren (fun n q => (f n q, [(n, q)])) cs vname true =
        specPreorderList cs vname
  | [], _ => rfl
  | c :: rest, vname => by
    simp only [walkChildren, specPreorderList]
    rw [walker_trace_eq f h c (some vname), walkChildren_trace_eq f h rest vname]
end

mutual
theorem specPreorder_length : ∀ (nv : VdevNode) (parent : Option String),
    (specPreorder nv parent).length = VdevNode.size nv
  | .mk t i p s cs, parent => by
    simp only [specPreorder, VdevNode.size, List.length_cons]
    rw [specPreorderList_length cs]
    omega

theorem specPreorderList_length : ∀ (cs : List VdevNode) (vname : String),
    (specPreorderList cs vname).length = VdevNode.sizeList cs
  | [], _ => rfl
  | c :: rest, vname => by
    simp only [specPreorderList, VdevNode.sizeList, List.length_append]
    rw [specPreorder_length c, specPreorderList_length rest]
end

/-- C9 (amended): when the per-node function returns 0 on every call, the
walker with `descend=true` calls it exactly once per node (trace length =
tree size) in pre-order, with the parent-name argument at each node equal to
the structural name `get_vdev_name` computed for its parent (as listed by the
spec-side `specPreorder`); with `descend=false` it calls the function only on
the given node. -/
theorem c9_walker_preorder (f : VdevNode → Option String → Nat)
    (h : ∀ n p, f n p = 0) (nv : VdevNode) (parent : Option String) :
    walkerCalls f nv parent true = specPreorder nv parent ∧
    (walkerCalls f nv parent true).length = VdevNode.size nv ∧
    walkerCalls f nv parent false = [(nv, parent)] := by
  refine ⟨walker_trace_eq f h nv parent, ?_, ?_⟩
  · rw [show walkerCalls f nv parent true = specPreorder nv parent from
      walker_trace_eq f h nv parent]
    exact specPreorder_length nv parent
  · cases nv with
    | mk t i p s cs => simp [walkerCalls, print_recursive_stats, h]

/-- Witness for C9 on the two-node tree with the all-zero function. -/
theorem c9_witness :
    walkerCalls (fun _ _ => 0) rootNode2 none true = specPreorder rootNode2 none ∧
    (walkerCalls (fun _ _ => 0) rootNode2 none true).length = VdevNode.size rootNode2 ∧
    walkerCalls (fun _ _ => 0) rootNode2 none false = [(rootNode2, none)] :=
  c9_walker_preorder (fun _ _ => 0) (fun _ _ => rfl) rootNode2 none

/-! ## Reducer characterization lemmas (claims C2, C5, C6) -/

theorem foldSums_map (arrays : List (List Nat)) (b : Nat) (g : List Nat → Nat) :
    foldSums arrays b (arrays.map g) =
      arrays.map fun a => (g a + a.getD b 0) % U64 :=
  zipWith_map_self g _ arrays

theorem foldl_foldSums (arrays : List (List Nat)) (bs : List Nat)
    (g : List Nat → Nat) (hg : ∀ a, g a < U64) :
    bs.foldl (fun s b => foldSums arrays b s) (arrays.map g) =
      arrays.map fun a => (g a + (bs.map fun b => a.getD b 0).sum) % U64 := by
  induction bs generalizing g with
  | nil =>
    simp only [List.foldl_nil, List.map_nil, List.sum_nil, Nat.add_zero]
    exact List.map_congr_left fun a _ => (Nat.mod_eq_of_lt (hg a)).symm
  | cons b bs ih =>
    rw [List.foldl_cons, foldSums_map,
      ih (fun a => (g a + a.getD b 0) % U64) (fun a => Nat.mod_lt _ U64_pos)]
    refine List.map_congr_left fun a _ => ?_
    rw [Nat.mod_add_mod, List.map_cons, List.sum_cons, Nat.add_assoc]

theorem reduceBuckets_append_skip (minIdx endIdx : Nat) (sumB : Bool)
    (arrays : List (List Nat)) (bs cs : List Nat)
    (h : ∀ b ∈ bs, b < minIdx) (sums : List Nat) :
    reduceBuckets minIdx endIdx sumB arrays sums (bs ++ cs) =
      reduceBuckets minIdx endIdx sumB arrays
        (bs.foldl (fun s b => foldSums arrays b s) sums) cs := by
  induction bs generalizing sums with
  | nil => simp
  | cons b bs ih =>
    have hb : b < minIdx := h b (by simp)
    rw [List.cons_append]
    simp only [reduceBuckets, if_pos hb]
    rw [ih (fun x hx => h x (by simp [hx])), List.foldl_cons]

theorem reduceBuckets_shape (minIdx endIdx : Nat) (sumB : Bool)
    (arrays : List (List Nat)) (bs : List Nat)
    (h : ∀ b ∈ bs, ¬ b < minIdx) (sums : List Nat) :
    (reduceBuckets minIdx endIdx sumB arrays sums bs).map
        (fun r => (r.bucket, r.le)) =
      bs.map fun b => (b, bucketLabel endIdx b) := by
  induction bs generalizing sums with
  | nil => rfl
  | cons b bs ih =>
    have hb := h b (by simp)
    simp only [reduceBuckets, if_neg hb, List.map_cons]
    rw [ih (fun x hx => h x (by simp [hx]))]

theorem reduceBuckets_raw (minIdx endIdx : Nat) (arrays : List (List Nat))
    (bs : List Nat) (h : ∀ b ∈ bs, minIdx < b) (g : List Nat → Nat) :
    reduceBuckets minIdx endIdx false arrays (arrays.map g) bs =
      bs.map fun b =>
        { bucket := b, le := bucketLabel endIdx b
          values := arrays.map fun a => a.getD b 0 } := by
  induction bs generalizing g with
  | nil => rfl
  | cons b bs ih =>
    have hb : minIdx < b := h b (by simp)
    have hb1 : ¬ b < minIdx := by omega
    have hcond : ¬ (b ≤ minIdx ∨ (false : Bool) = true) := by
      push_neg
      exact ⟨by omega, by simp⟩
    simp only [reduceBuckets, if_neg hb1, stepSums, if_neg hcond]
    rw [zipWith_map_self g (fun _ a => a.getD b 0) arrays,
      ih (fun x hx => h x (by simp [hx])) (fun a => a.getD b 0), List.map_cons]

theorem reduceBuckets_cum (minIdx endIdx : Nat) (arrays : List (List Nat))
    (bs : List Nat) (h : ∀ b ∈ bs, ¬ b < minIdx) (g : List Nat → Nat) :
    reduceBuckets minIdx endIdx true arrays (arrays.map g) bs =
      (List.range bs.length).map fun j =>
        { bucket := bs.getD j 0
          le := bucketLabel endIdx (bs.getD j 0)
          values := arrays.map fun a =>
            (g a + ((bs.take (j + 1)).map fun b => a.getD b 0).sum) % U64 } := by
  induction bs generalizing g with
  | nil => rfl
  | cons b bs ih =>
    have hb := h b (by simp)
    simp only [reduceBuckets, if_neg hb, stepSums, or_true, if_true, foldSums_map]
    rw [ih (fun x hx => h x (by simp [hx])) (fun a => (g a + a.getD b 0) % U64)]
    rw [List.length_cons, List.range_succ_eq_map, List.map_cons, List.map_map]
    congr 1
    simp only [Nat.mod_add_mod]
    refine List.map_congr_left fun j hj => ?_
    simp only [Function.comp_apply, Nat.succ_eq_add_one, List.getD_cons_succ,
      List.take_succ_cons, List.map_cons, List.sum_cons]
    congr 1
    refine List.map_congr_left fun a _ => ?_
    rw [Nat.add_assoc]

theorem reduceHist_eq_emit (minIdx endIdx : Nat) (sumB : Bool)
    (arrays : List (List Nat)) (hle : minIdx ≤ endIdx + 1) :
    reduceHist minIdx endIdx sumB arrays =
      reduceBuckets minIdx endIdx sumB arrays
        (arrays.map fun a => ((List.range minIdx).map fun b => a.getD b 0).sum % U64)
        (List.range' minIdx (endIdx + 1 - minIdx)) := by
  unfold reduceHist
  rw [List.range_eq_range',
    show endIdx + 1 = (endIdx + 1 - minIdx) + minIdx from by omega,
    ← List.range'_append 0 minIdx (endIdx + 1 - minIdx) 1]
  simp only [Nat.one_mul, Nat.zero_add]
  rw [reduceBuckets_append_skip minIdx endIdx sumB arrays _ _
    (fun b hb => by
      have := List.mem_range'_1.mp hb
      omega)]
  rw [foldl_foldSums arrays _ (fun _ => 0) (fun _ => U64_pos)]
  rw [← List.range_eq_range']
  simp only [Nat.zero_add,
    show endIdx + 1 - minIdx + minIdx - minIdx = endIdx + 1 - minIdx from by omega]

theorem histExtract_all_some (arrays : List (List Nat)) (e0 : Nat)
    (hne : arrays ≠ []) :
    histExtract (arrays.map some) e0 =
      .ok (arrays, histEnd (arrays.getLast hne).length) := by
  induction arrays generalizing e0 with
  | nil => exact absurd rfl hne
  | cons a rest ih =>
    cases rest with
    | nil => rfl
    | cons b t =>
      have step : histExtract (List.map some (a :: b :: t)) e0 =
          match histExtract (List.map some (b :: t)) (histEnd a.length) with
          | .error e => .error e
          | .ok (as, en) => .ok (a :: as, en) := rfl
      rw [step, ih (histEnd a.length) (by simp)]
      simp [List.getLast_cons]

theorem histEnd_eq (L : Nat) (h1 : 1 ≤ L) (h2 : L < U32) : histEnd L = L - 1 := by
  unfold histEnd
  rw [Nat.mod_eq_of_lt h2,
    show L + U32 - 1 = (L - 1) + U32 from by omega,
    Nat.add_mod_right]
  exact Nat.mod_eq_of_lt (by unfold U32 at *; omega)

theorem range_map_getD_eq_take (a : List Nat) (n : Nat) (h : n ≤ a.length) :
    (List.range n).map (fun b => a.getD b 0) = a.take n := by
  apply List.ext_getElem
  · simp [List.length_take]
    omega
  · intro i h1 h2
    simp only [List.getElem_map, List.getElem_range, List.getElem_take]
    rw [List.getD_eq_getElem a 0 (by simp at h1; omega)]

theorem sum_take_succ_getD (a : List Nat) (n : Nat) (h : n < a.length) :
    (a.take (n + 1)).sum = (a.take n).sum + a.getD n 0 := by
  rw [List.take_succ, List.sum_append, List.getD_eq_getElem a 0 h,
    List.getElem?_eq_getElem h]
  simp

theorem histExtract_mem_none (lookups : List (Option (List Nat))) (e0 : Nat)
    (hmem : none ∈ lookups) : histExtract lookups e0 = .error 3 := by
  induction lookups generalizing e0 with
  | nil => cases hmem
  | cons x rest ih =>
    cases x with
    | none => rfl
    | some a =>
      have : none ∈ rest := by
        rcases List.mem_cons.mp hmem with h | h
        · cases h
        · exact h
      simp only [histExtract, ih (histEnd a.length) this]

/-- C5: for every nonempty histogram set of arrays of common length L with
floor index F < L, the extraction reports bucket bound L-1 and the reducer
emits exactly L-F rows, for buckets F..L-1 in order, the last labeled "+Inf"
(`none`) and every other row for bucket b labeled 2^b (`bucketLabel`); the
1e-9 latency display scaling is printf formatting, not modelled. -/
theorem c5_reducer_row_count_and_labels (arrays : List (List Nat)) (L F : Nat)
    (sumB : Bool) (hne : arrays ≠ []) (hlen : ∀ a ∈ arrays, a.length = L)
    (hFL : F < L) (hL : L < U32) :
    histExtract (arrays.map some) 0 = .ok (arrays, L - 1) ∧
    (reduceHist F (L - 1) sumB arrays).map (fun r => (r.bucket, r.le)) =
      (List.range' F (L - F)).map (fun b => (b, bucketLabel (L - 1) b)) ∧
    (reduceHist F (L - 1) sumB arrays).length = L - F := by
  have hLast : (arrays.getLast hne).length = L := hlen _ (List.getLast_mem hne)
  have h1 : histExtract (arrays.map some) 0 = .ok (arrays, L - 1) := by
    rw [histExtract_all_some arrays 0 hne, hLast, histEnd_eq L (by omega) hL]
  have hshape : (reduceHist F (L - 1) sumB arrays).map (fun r => (r.bucket, r.le)) =
      (List.range' F (L - F)).map (fun b => (b, bucketLabel (L - 1) b)) := by
    rw [reduceHist_eq_emit F (L - 1) sumB arrays (by omega),
      show L - 1 + 1 - F = L - F from by omega]
    exact reduceBuckets_shape F (L - 1) sumB arrays _
      (fun b hb => by have := List.mem_range'_1.mp hb; omega) _
  refine ⟨h1, hshape, ?_⟩
  have hlength := congrArg List.length hshape
  simpa using hlength

/-- Witness for C5: a single 16-bucket series with floor index 10 yields
exactly 6 rows for buckets 10..15, the last labeled "+Inf". -/
theorem c5_witness :
    histExtract ([List.replicate 16 1].map some) 0 =
      .ok ([List.replicate 16 1], 15) ∧
    (reduceHist 10 15 false [List.replicate 16 1]).map (fun r => (r.bucket, r.le)) =
      (List.range' 10 6).map (fun b => (b, bucketLabel 15 b)) ∧
    (reduceHist 10 15 false [List.replicate 16 1]).length = 6 :=
  c5_reducer_row_count_and_labels [List.replicate 16 1] 16 10 false (by decide)
    (by decide) (by decide) (by decide)

/-- C2 (amended): with `sum_buckets=false` the row for the floor bucket F —
and only that row — carries the cumulative running sum including the fold-in
of all buckets below F (the uint64 sum of entries 0..F), while every later
row, starting already at bucket F+1, carries the raw per-bucket array value. -/
theorem c2_floor_bucket_cumulative_then_raw (arrays : List (List Nat))
    (F endIdx : Nat) (hF : F ≤ endIdx) (hlen : ∀ a ∈ arrays, F < a.length) :
    reduceHist F endIdx false arrays =
      { bucket := F, le := bucketLabel endIdx F
        values := arrays.map fun a => (a.take (F + 1)).sum % U64 } ::
      (List.range' (F + 1) (endIdx - F)).map fun b =>
        { bucket := b, le := bucketLabel endIdx b
          values := arrays.map fun a => a.getD b 0 } := by
  rw [reduceHist_eq_emit F endIdx false arrays (by omega),
    show endIdx + 1 - F = (endIdx - F) + 1 from by omega, List.range'_succ]
  have hstep : stepSums F false arrays F
      (arrays.map fun a => ((List.range F).map fun b => a.getD b 0).sum % U64) =
      arrays.map fun a => (a.take (F + 1)).sum % U64 := by
    unfold stepSums
    rw [if_pos (Or.inl (le_refl F)), foldSums_map]
    refine List.map_congr_left fun a ha => ?_
    rw [Nat.mod_add_mod, range_map_getD_eq_take a F (by have := hlen a ha; omega),
      sum_take_succ_getD a F (hlen a ha)]
  simp only [reduceBuckets, if_neg (lt_irrefl F), hstep]
  rw [reduceBuckets_raw F endIdx arrays _
    (fun b hb => by have := List.mem_range'_1.mp hb; omega)
    (fun a => (a.take (F + 1)).sum % U64)]

/-- Witness for C2 (amended) on the series `[1,0,...,0,5]` with floor index
10 and bucket bound 11: the bucket-10 row carries the cumulative 1, the
bucket-11 row the raw 5. -/
theorem c2_witness :
    reduceHist 10 11 false [[1, 0, 0, 0, 0, 0, 0, 0, 0, 0, 0, 5]] =
      { bucket := 10, le := some 1024, values := [1] } ::
        [{ bucket := 11, le := none, values := [5] }] := by
  rw [c2_floor_bucket_cumulative_then_raw [[1, 0, 0, 0, 0, 0, 0, 0, 0, 0, 0, 5]]
    10 11 (by decide) (by decide)]
  decide

/-- C3 (amended): a missing named array is a fatal extraction error — code 3,
no partial row output from the latency printer — but arrays of differing
lengths are NOT detected: extraction succeeds and silently uses the LAST
array's length to derive the bucket bound for all arrays. -/
theorem c3_missing_array_fatal_but_lengths_unchecked (pre : List (List Nat))
    (post : List (Option (List Nat))) (arrays : List (List Nat)) (e0 e1 : Nat)
    (hne : arrays ≠ []) (sumB : Bool) (pool_name : String) (nv : VdevNode)
    (ex : VdevStatsEx) (hex : nv.stats_ex = some ex)
    (hmem : none ∈ ex.latHistos) (parent : Option String) :
    histExtract (pre.map some ++ none :: post) e0 = .error 3 ∧
    print_vdev_latency_stats sumB pool_name nv parent = (3, []) ∧
    histExtract (arrays.map some) e1 =
      .ok (arrays, histEnd (arrays.getLast hne).length) := by
  refine ⟨histExtract_mem_none _ _ (by simp), ?_, histExtract_all_some arrays e1 hne⟩
  unfold print_vdev_latency_stats
  rw [hex]
  simp [histExtract_mem_none ex.latHistos 0 hmem]

/-- Witness for C3 (amended) at concrete inputs, including the node
`nodeMissingLat` whose second latency array is absent. -/
theorem c3_witness :
    histExtract ([[1, 2]].map some ++ none :: [some [9]]) 0 = .error 3 ∧
    print_vdev_latency_stats false "tank" nodeMissingLat none = (3, []) ∧
    histExtract ([[1, 2], [3, 4, 5]].map some) 0 =
      .ok ([[1, 2], [3, 4, 5]],
        histEnd (([[1, 2], [3, 4, 5]] : List (List Nat)).getLast (by decide)).length) :=
  c3_missing_array_fatal_but_lengths_unchecked [[1, 2]] [some [9]]
    [[1, 2], [3, 4, 5]] 0 0 (by decide) false "tank" nodeMissingLat
    exMissingLat rfl (by decide) none

theorem getD_map_range {β : Type} [Inhabited β] (f : Nat → β) (n j : Nat)
    (h : j < n) : ((List.range n).map f).getD j default = f j := by
  rw [List.getD_eq_getElem _ _ (by simp [h]), List.getElem_map, List.getElem_range]

theorem getD_map_lt {α β : Type} (g : α → β) (l : List α) (k : Nat) (d : β)
    (h : k < l.length) : (l.map g).getD k d = g l[k] := by
  rw [List.getD_eq_getElem _ _ (by simpa using h), List.getElem_map]

/-- C6 (amended): in cumulative mode the emitted value sequence of every
series is monotone non-decreasing across rows, provided the series' total
bucket sum stays below 2^64 (no uint64 wrap-around; `c6_counterexample`
shows the wrap breaks monotonicity). -/
theorem c6_cumulative_monotone_without_overflow (arrays : List (List Nat))
    (F endIdx : Nat) (hF : F ≤ endIdx)
    (hbound : ∀ a ∈ arrays,
      ((List.range (endIdx + 1)).map fun b => a.getD b 0).sum < U64) :
    ∀ i k, i + 1 < (reduceHist F endIdx true arrays).length →
      ((reduceHist F endIdx true arrays).getD i default).values.getD k 0 ≤
        ((reduceHist F endIdx true arrays).getD (i + 1) default).values.getD k 0 := by
  intro i k hi
  set n := endIdx + 1 - F with hn
  set bsE := List.range' F n with hbsE
  have hmem : ∀ b ∈ bsE, ¬ b < F := fun b hb => by
    have := List.mem_range'_1.mp hb
    omega
  have hform : reduceHist F endIdx true arrays =
      (List.range bsE.length).map fun j =>
        { bucket := bsE.getD j 0
          le := bucketLabel endIdx (bsE.getD j 0)
          values := arrays.map fun a =>
            ((((List.range F).map fun b => a.getD b 0).sum % U64) +
              ((bsE.take (j + 1)).map fun b => a.getD b 0).sum) % U64 } := by
    rw [reduceHist_eq_emit F endIdx true arrays (by omega)]
    exact reduceBuckets_cum F endIdx arrays bsE hmem _
  rw [hform] at hi ⊢
  simp only [List.length_map, List.length_range] at hi
  rw [getD_map_range _ _ _ (by omega), getD_map_range _ _ _ (by omega)]
  dsimp only
  by_cases hk : k < arrays.length
  · rw [getD_map_lt _ _ _ _ hk, getD_map_lt _ _ _ _ hk]
    set a := arrays[k] with hadef
    have ha : a ∈ arrays := List.getElem_mem hk
    have htot := hbound a ha
    have hsplit : ((List.range (endIdx + 1)).map fun b => a.getD b 0).sum =
        ((List.range F).map fun b => a.getD b 0).sum +
          (bsE.map fun b => a.getD b 0).sum := by
      rw [List.range_eq_range', show endIdx + 1 = n + F from by omega,
        ← List.range'_append 0 F n 1]
      simp only [Nat.one_mul, Nat.zero_add, List.map_append, List.sum_append]
      rw [← List.range_eq_range']
    have hS1 : ((bsE.take (i + 1)).map fun b => a.getD b 0).sum ≤
        (bsE.map fun b => a.getD b 0).sum := by
      rw [List.map_take]
      exact sum_take_le _ _
    have hS2 : ((bsE.take (i + 1 + 1)).map fun b => a.getD b 0).sum ≤
        (bsE.map fun b => a.getD b 0).sum := by
      rw [List.map_take]
      exact sum_take_le _ _
    have hSmono : ((bsE.take (i + 1)).map fun b => a.getD b 0).sum ≤
        ((bsE.take (i + 1 + 1)).map fun b => a.getD b 0).sum := by
      rw [List.map_take, List.map_take]
      exact sum_take_mono _ _ _ (by omega)
    rw [Nat.mod_eq_of_lt (show ((List.range F).map fun b => a.getD b 0).sum < U64
      from by omega)]
    rw [Nat.mod_eq_of_lt (by omega), Nat.mod_eq_of_lt (by omega)]
    omega
  · have hk2 : arrays.length ≤ k := by omega
    rw [List.getD_eq_default _ _ (by simpa using hk2),
      List.getD_eq_default _ _ (by simpa using hk2)]

/-- Witness for C6 (amended): an all-ones 12-bucket series, floor index 10,
bucket bound 11 — row 0's first value is at most row 1's. -/
theorem c6_witness :
    ((reduceHist 10 11 true [[1, 1, 1, 1, 1, 1, 1, 1, 1, 1, 1, 1]]).getD 0
        default).values.getD 0 0 ≤
      ((reduceHist 10 11 true [[1, 1, 1, 1, 1, 1, 1, 1, 1, 1, 1, 1]]).getD 1
        default).values.getD 0 0 :=
  c6_cumulative_monotone_without_overflow [[1, 1, 1, 1, 1, 1, 1, 1, 1, 1, 1, 1]]
    10 11 (by decide) (by decide) 0 0 (by decide)

/-! ## Scan-status lemmas (claim C8) -/

theorem ite_ne_zero_max (x : Nat) : (if x ≠ 0 then x else 1) = max x 1 := by
  split <;> omega

theorem ite_pos_max (x : Nat) : (if x > 0 then x else 1) = max x 1 := by
  split <;> omega

theorem ite_pos_max_int (e : Int) : (if e > 0 then e else 1) = max e 1 := by
  split <;> omega

/-- C8: every emitted scan record carries `rate ≥ 1` (the final floor at
line 223) whichever branch computed it; while scanning, `remaining_t` is the
uint64 difference `to_examine - examined/rate` where `examined` is floored at
1 and `rate = pass_exam/elapsed` is built from `pass_exam` floored at 1,
`elapsed = now - pass_start - paused` floored at 1, and is itself floored at
1 before the division; while not scanning, `remaining_t` is 0. -/
theorem c8_scan_rate_and_remaining (ps : pool_scan_stat) (now : Int)
    (hstate : ps.pss_state < DSS_NUM_STATES) (hfunc : ps.pss_func < POOL_SCAN_FUNCS)
    (hexa : ps.pss_examined < U64) (hte : ps.pss_to_examine < U64) :
    ∃ r : ScanRecord,
      print_scan_status (some ps) now = (0, some r) ∧
      1 ≤ r.rate ∧
      (ps.pss_state = DSS_SCANNING →
        r.remaining_t =
          (ps.pss_to_examine + U64 -
            max ps.pss_examined 1 /
              max (max ps.pss_pass_exam 1 /
                (max (now - toInt64 ps.pss_pass_start -
                  toInt64 ps.pss_pass_scrub_spent_paused) 1).toNat) 1) % U64) ∧
      (ps.pss_state ≠ DSS_SCANNING → r.remaining_t = 0) := by
  have hguard : ¬ (ps.pss_state ≥ DSS_NUM_STATES ∨ ps.pss_func ≥ POOL_SCAN_FUNCS) := by
    push_neg
    exact ⟨hstate, hfunc⟩
  unfold print_scan_status
  dsimp only
  rw [if_neg hguard]
  refine ⟨_, rfl, ?_, ?_, ?_⟩
  · dsimp only
    simp only [ite_ne_zero_max]
    exact le_max_right _ _
  · intro hs
    dsimp only
    rw [if_pos hs]
    dsimp only
    simp only [u64sub, ite_ne_zero_max, ite_pos_max, ite_pos_max_int]
    have hU : 1 < U64 := by unfold U64; norm_num
    set R := max (max ps.pss_pass_exam 1 /
      (max (now - toInt64 ps.pss_pass_start -
        toInt64 ps.pss_pass_scrub_spent_paused) 1).toNat) 1 with hR
    have hDiv := Nat.div_le_self (max ps.pss_examined 1) R
    have h1 : ps.pss_to_examine % U64 = ps.pss_to_examine := Nat.mod_eq_of_lt hte
    have h2 : (max ps.pss_examined 1 / R) % U64 = max ps.pss_examined 1 / R :=
      Nat.mod_eq_of_lt (by omega)
    rw [h1, h2]
  · intro hns
    dsimp only
    rw [if_neg hns]

/-- Witness for C8 on `scanningStat` (state=scanning, 500 of 1000 examined,
600 examined this pass in 60 seconds). -/
theorem c8_witness :
    ∃ r : ScanRecord,
      print_scan_status (some scanningStat) 60 = (0, some r) ∧
      1 ≤ r.rate ∧
      (scanningStat.pss_state = DSS_SCANNING →
        r.remaining_t =
          (scanningStat.pss_to_examine + U64 -
            max scanningStat.pss_examined 1 /
              max (max scanningStat.pss_pass_exam 1 /
                (max ((60 : Int) - toInt64 scanningStat.pss_pass_start -
                  toInt64 scanningStat.pss_pass_scrub_spent_paused) 1).toNat) 1) %
            U64) ∧
      (scanningStat.pss_state ≠ DSS_SCANNING → r.remaining_t = 0) :=
  c8_scan_rate_and_remaining scanningStat 60 (by decide) (by decide) (by decide)
    (by decide)
